import Mathlib

/-!
Verification of the LSP request-handler layer of `marksman` (`src/lsp/handlers.rs`)
against its natural-language specification.

Shallow embedding conventions:
* Byte spans are half-open `Nat` ranges; editor positions are `(line, character)`
  pairs of `Nat` (Rust `u32`; all subtractions the theorems talk about are shown
  exact, so `Nat` subtraction is faithful).
* The excluded collaborators (note-facts database, position bridge, text-edit
  application, `diag::to_publish`, name/path conversion) are modelled as fields
  of the `NoteFacts` / `FactsDB` structures or as function parameters; theorems
  that need a collaborator invariant (e.g. a monotone position bridge) state it
  as a hypothesis.
* `serde_json` round-trip payloads (`CompletionType`, `ReferenceData`,
  `ShowReferencesData`) are stored as typed values: the spec stipulates they
  survive the round trip byte-for-byte.
* A Rust `panic!` / `.unwrap()` on `None` is modelled as a distinguished error
  value: `Except.error ()` for `goto_definition`, the `none` result of
  `semantic_tokens_encode` (whose Rust return type has no absent case).
-/

--------------------------------------------------------------------------------
-- Basic text / position model
--------------------------------------------------------------------------------

/-- A half-open byte range into a note's text (Rust `Range<usize>`). -/
structure Span where
  start : Nat
  stop : Nat
deriving DecidableEq, Repr

/-- An editor position (`lsp_types::Position`): zero-based line and character. -/
structure Pos where
  line : Nat
  character : Nat
deriving DecidableEq, Repr

/-- An editor range (`lsp_types::Range`); `stop` stands for the `end` field. -/
structure Range where
  start : Pos
  stop : Pos
deriving DecidableEq, Repr

/-- Lexicographic order on editor positions: line first, then character. -/
def Pos.lexLe (p q : Pos) : Prop :=
  p.line < q.line ∨ (p.line = q.line ∧ p.character ≤ q.character)

instance (p q : Pos) : Decidable (p.lexLe q) := by
  unfold Pos.lexLe; infer_instance

theorem Pos.lexLe_refl (p : Pos) : p.lexLe p := Or.inr ⟨rfl, Nat.le_refl _⟩

theorem Pos.lexLe_trans {p q r : Pos} (h1 : p.lexLe q) (h2 : q.lexLe r) : p.lexLe r := by
  rcases h1 with h1 | ⟨h1, h1c⟩ <;> rcases h2 with h2 | ⟨h2, h2c⟩
  · exact Or.inl (Nat.lt_trans h1 h2)
  · exact Or.inl (h2 ▸ h1)
  · exact Or.inl (h1 ▸ h2)
  · exact Or.inr ⟨h1.trans h2, Nat.le_trans h1c h2c⟩

instance : IsTrans Pos Pos.lexLe := ⟨fun _ _ _ h1 h2 => Pos.lexLe_trans h1 h2⟩

theorem Pos.zero_lexLe (p : Pos) : Pos.lexLe ⟨0, 0⟩ p := by
  rcases Nat.eq_zero_or_pos p.line with h | h
  · exact Or.inr ⟨h.symm, Nat.zero_le _⟩
  · exact Or.inl h

--------------------------------------------------------------------------------
-- Structure elements (from `structure.rs`, an excluded collaborator)
--------------------------------------------------------------------------------

/-- A markdown heading: text, level (title = level 1) and the byte scope of its
section (`Heading` in `structure.rs`). -/
structure Heading where
  text : String
  level : Nat
  scope : Span
deriving DecidableEq, Repr

/-- A link reference: optional target note name, optional target heading text,
and the raw markup text (`LinkRef` in `structure.rs`).  A `NoteName` is its
canonical string form. -/
structure LinkRef where
  note_name : Option String
  heading : Option String
  text : String
deriving DecidableEq, Repr

/-- The tagged element union; only `heading` and `linkRef` are observable to the
handler layer, every other variant behaves like `other`. -/
inductive Element where
  | heading (h : Heading)
  | linkRef (r : LinkRef)
  | other
deriving DecidableEq, Repr

/-- An element paired with its byte span (`ElementWithLoc`). -/
abbrev ElementWithLoc := Element × Span

/-- Identity of a note file: owning root and path (`store::NoteFile`). -/
structure NoteFile where
  root : String
  path : String
deriving DecidableEq, Repr

/-- A note's version stamp (`store::Version`). -/
inductive Version where
  | vs (v : Int)
deriving DecidableEq, Repr

/-- A diagnostic with its location.  Modelled from the spec: `DiagWithLoc`
lives in the excluded `diag.rs`; the spec requires only content-based
(structural) equality over location and message, which `DecidableEq` gives. -/
structure DiagWithLoc where
  message : String
  range : Span
deriving DecidableEq, Repr

abbrev NoteId := Nat

/-- The per-note read interface consumed from the note-facts collaborator
(`NoteFactsDB` / `NoteFactsExt`).  `elements` is the note's structure, with an
element's id its index; the remaining fields model the collaborator's fallible
queries (position bridge, enclosing-element lookup, title id, heading-by-text
lookup, per-heading incoming references, diagnostics). -/
structure NoteFacts where
  file : NoteFile
  content : String
  version : Version
  elements : List ElementWithLoc
  element_at_lsp_pos : Pos → Option Nat
  title : Option Nat
  heading_with_text : String → Option Nat
  headings_matching : (Heading → Bool) → List Nat
  range_to_lsp_range : Span → Option Range
  offset_to_lsp_position : Nat → Option Pos
  diag : List DiagWithLoc
  refs_to_heading : Nat → List (NoteId × Nat)

/-- The note store / index (`FactsDB`): the ids of all known notes and each
note's facts, plus the name/path conversions of `NoteName` (the `root` argument
is folded into them: `from_path p` models `NoteName::from_path(p, root)` and
`to_path n` models `n.to_path(root)`). -/
structure FactsDB where
  ids : List NoteId
  facts : NoteId → NoteFacts
  from_path : String → String
  to_path : String → String

/-- `note_index().find_by_path`: the first known note whose file path is `p`. -/
def FactsDB.find_by_path (db : FactsDB) (p : String) : Option NoteId :=
  db.ids.find? (fun i => decide ((db.facts i).file.path = p))

/-- `note_index().find_by_name`: the first known note whose derived name is `n`. -/
def FactsDB.find_by_name (db : FactsDB) (n : String) : Option NoteId :=
  db.ids.find? (fun i => decide (db.from_path (db.facts i).file.path = n))

/-- `structure.elements_by_id`: id-indexed element lookup (ids are indices). -/
def NoteFacts.elements_by_id (note : NoteFacts) (id : Nat) : ElementWithLoc :=
  note.elements.getD id (Element.other, ⟨0, 0⟩)

/-- `structure.heading_by_id`.  Rust panics when the id is not a heading; the
handler layer only ever calls it with ids obtained from heading queries, so the
junk default is unreachable under the index invariants. -/
def NoteFacts.heading_by_id (note : NoteFacts) (id : Nat) : Heading × Span :=
  match note.elements_by_id id with
  | (Element.heading h, sp) => (h, sp)
  | _ => (⟨"", 0, ⟨0, 0⟩⟩, ⟨0, 0⟩)

/-- `structure.ref_by_id`, with the same unreachable-default convention. -/
def NoteFacts.ref_by_id (note : NoteFacts) (id : Nat) : LinkRef × Span :=
  match note.elements_by_id id with
  | (Element.linkRef r, sp) => (r, sp)
  | _ => (⟨none, none, ""⟩, ⟨0, 0⟩)

/-- Modelled from the spec: `structure.headings()` — the ids of the note's
heading elements, in order ("ordered headings ... a stable id for every
element"). -/
def NoteFacts.headings (note : NoteFacts) : List Nat :=
  (List.range note.elements.length).filter
    (fun i => match note.elements.getD i (Element.other, ⟨0, 0⟩) with
      | (Element.heading _, _) => true
      | _ => false)

/-- `structure.headings_with_ids`: each id resolved to its heading and span;
non-heading ids contribute nothing. -/
def NoteFacts.headings_with_ids (note : NoteFacts) (ids : List Nat) :
    List (Heading × Span) :=
  ids.filterMap (fun i => match note.elements.getD i (Element.other, ⟨0, 0⟩) with
    | (Element.heading h, sp) => some (h, sp)
    | _ => none)

--------------------------------------------------------------------------------
-- Text synchronization (`note_apply_changes`)
--------------------------------------------------------------------------------

/-- One incremental edit (`TextDocumentContentChangeEvent`): an optional editor
range and the replacement text. -/
structure ContentChange where
  range : Option Range
  text : String

/-- `DidChangeTextDocumentParams`: the new version and the ordered edits. -/
structure DidChangeTextDocumentParams where
  version : Int
  content_changes : List ContentChange

/-- `FactsDB.update_note`: replace one note's text and version (the structure
fields are recomputed by the excluded collaborator and are not touched here). -/
def FactsDB.update_note (db : FactsDB) (id : NoteId) (version : Version)
    (content : String) : FactsDB :=
  { db with
    facts := fun i =>
      if i = id then { db.facts i with version := version, content := content }
      else db.facts i }

/-- `note_apply_changes`.  `apply_change text range newText` models
`lsp_text::apply_change(&text, &OffsetMap::new(&text), range, &newText)`: the
offset map is a pure function of the current buffer, so passing the buffer
captures "recomputed after every edit". -/
def note_apply_changes (apply_change : String → Option Range → String → String)
    (facts : FactsDB) (path : String) (changes : DidChangeTextDocumentParams) :
    FactsDB :=
  match facts.find_by_path path with
  | none => facts
  | some note_id =>
    let final_text := changes.content_changes.foldl
      (fun acc c => apply_change acc c.range c.text)
      (facts.facts note_id).content
    facts.update_note note_id (Version.vs changes.version) final_text

--------------------------------------------------------------------------------
-- Completion (`completion_candidates`)
--------------------------------------------------------------------------------

/-- The opaque round-trip payload of a completion item (`CompletionType`). -/
inductive CompletionType where
  | noteCompletion (note_name : String)
  | headingCompletion (note_name : String) (heading : String)
deriving DecidableEq, Repr

/-- The completion-item kinds this layer produces. -/
inductive CompletionItemKind where
  | file
  | text
deriving DecidableEq, Repr

/-- The fields of `lsp_types::CompletionItem` this layer sets; `data` holds the
typed round-trip payload. -/
structure CompletionItem where
  label : String
  kind : Option CompletionItemKind
  detail : Option String
  insert_text : Option String
  data : Option CompletionType
deriving DecidableEq, Repr

/-- `str.contains(c)` over the string's characters (`String::contains` with a
char pattern); stated over the character list so that it is kernel-computable. -/
def stringContainsChar (s : String) (c : Char) : Bool := s.data.contains c

/-- The note-name branch's loop body over the candidate ids (the `for
candidate_id in facts.note_index().ids()` loop of `completion_candidates`);
`tmq` is the collaborator predicate `text_matches_query`. -/
def noteCandidate (db : FactsDB) (tmq : String → String → Bool)
    (encl_note_id : NoteId) (partialInput : String) (candidate_id : NoteId) :
    Option CompletionItem :=
  if candidate_id = encl_note_id then none
  else
    let cand := db.facts candidate_id
    match cand.title with
    | none => none
    | some tid =>
      let title := (cand.heading_by_id tid).1
      if tmq title.text partialInput then
        let name := db.from_path cand.file.path
        some { label := title.text
               kind := some CompletionItemKind.file
               detail := some name
               insert_text := some name
               data := some (CompletionType.noteCompletion name) }
      else none

/-- The heading branch's loop body (the `for (hd, _) in candidate_headings`
loop): skip level-1 headings, emit a heading candidate otherwise. -/
def headingCandidate (target_note_name : String) (hd : Heading × Span) :
    Option CompletionItem :=
  if hd.1.level = 1 then none
  else
    some { label := hd.1.text
           kind := some CompletionItemKind.text
           detail := none
           insert_text := none
           data := some (CompletionType.headingCompletion target_note_name hd.1.text) }

/-- `completion_candidates`: generation phase of the completion engine.  The
`root` argument of the Rust function is folded into `db.from_path`/`db.to_path`. -/
def completion_candidates (db : FactsDB) (tmq : String → String → Bool)
    (current_tag : String) (pos : Pos) : Option (List CompletionItem) := do
  let encl_note_id ← db.find_by_path current_tag
  let encl_note := db.facts encl_note_id
  let eid ← encl_note.element_at_lsp_pos pos
  match (encl_note.elements_by_id eid).1 with
  | Element.linkRef enclosing_link_ref =>
    let tries_to_match_note :=
      enclosing_link_ref.heading.isNone && !(stringContainsChar enclosing_link_ref.text '@')
    if tries_to_match_note then
      let partialInput := enclosing_link_ref.note_name.getD ""
      let candidates :=
        db.ids.filterMap (noteCandidate db tmq encl_note_id partialInput)
      if candidates.isEmpty then none else some candidates
    else
      let target_note_name :=
        enclosing_link_ref.note_name.getD (db.from_path current_tag)
      let target_tag :=
        match enclosing_link_ref.note_name with
        | some name => db.to_path name
        | none => current_tag
      let cand_id ← db.find_by_path target_tag
      let cand := db.facts cand_id
      let query := enclosing_link_ref.heading.getD ""
      let candidate_heading_ids :=
        cand.headings_matching (fun hd => tmq hd.text query)
      let candidate_headings := cand.headings_with_ids candidate_heading_ids
      let candidates := candidate_headings.filterMap (headingCandidate target_note_name)
      if candidates.isEmpty then none else some candidates
  | _ => none

--------------------------------------------------------------------------------
-- Go to definition (`goto_definition`)
--------------------------------------------------------------------------------

/-- An editor location (`lsp_types::Location`); the uri is modelled by the
target file's path (`Url::from_file_path`). -/
structure Location where
  uri : String
  range : Range
deriving DecidableEq, Repr

/-- `goto_definition`.  `Except.error ()` models the `panic!` of the
`.unwrap()` on the target heading's range conversion; `Except.ok none` is the
ordinary absent result. -/
def goto_definition (db : FactsDB) (path : String) (pos : Pos) :
    Except Unit (Option Location) :=
  match db.find_by_path path with
  | none => Except.ok none
  | some source_id =>
    let source_note := db.facts source_id
    match source_note.element_at_lsp_pos pos with
    | none => Except.ok none
    | some eid =>
      match (source_note.elements_by_id eid).1 with
      | Element.linkRef link_ref =>
        let target_note_name := link_ref.note_name.getD (db.from_path path)
        match db.find_by_name target_note_name with
        | none => Except.ok none
        | some target_id =>
          let target_note := db.facts target_id
          let hid? :=
            match link_ref.heading with
            | some link_heading => target_note.heading_with_text link_heading
            | none => target_note.title
          match hid? with
          | none => Except.ok none
          | some hid =>
            let target_range := (target_note.heading_by_id hid).2
            match target_note.range_to_lsp_range target_range with
            | none => Except.error ()
            | some range =>
              Except.ok (some ⟨target_note.file.path, range⟩)
      | _ => Except.ok none

--------------------------------------------------------------------------------
-- Semantic tokens (`semantic_tokens_encode`)
--------------------------------------------------------------------------------

/-- The two entries of the fixed token legend (`SemanticTokenType::CLASS` and
`SemanticTokenType::PROPERTY`); every other kind is outside the legend and
`semantic_token_type_mapping` is a contract violation (`unimplemented!`). -/
inductive SemanticTokenType where
  | class_
  | property
deriving DecidableEq, Repr

/-- `semantic_token_type_mapping`: the closed legend indices. -/
def semantic_token_type_mapping : SemanticTokenType → Nat
  | SemanticTokenType.class_ => 0
  | SemanticTokenType.property => 1

/-- One wire token (`lsp_types::SemanticToken`), in the relative-delta format. -/
structure SemanticToken where
  delta_line : Nat
  delta_start : Nat
  length : Nat
  token_type : Nat
  token_modifiers_bitset : Nat
deriving DecidableEq, Repr

/-- The element loop of `semantic_tokens_encode`, with the running state
`(cur_line, cur_char_offset)` explicit.  `bridge` is the note's
`indexed_text().range_to_lsp_range`; its failure is `.unwrap()`ed in Rust, so a
failed conversion of a `LinkRef` span makes the whole call `none` (panic). -/
def semantic_tokens_encode_loop (bridge : Span → Option Range) :
    List ElementWithLoc → Nat → Nat → Option (List SemanticToken)
  | [], _, _ => some []
  | (el, el_span) :: rest, cur_line, cur_char_offset =>
    match el with
    | Element.heading _ => semantic_tokens_encode_loop bridge rest cur_line cur_char_offset
    | Element.other => semantic_tokens_encode_loop bridge rest cur_line cur_char_offset
    | Element.linkRef _ =>
      match bridge el_span with
      | none => none
      | some el_pos =>
        if el_pos.stop.line > el_pos.start.line then
          -- multi-line tokens cannot be represented: skip
          semantic_tokens_encode_loop bridge rest cur_line cur_char_offset
        else
          let delta_line := el_pos.start.line - cur_line
          let delta_start :=
            if delta_line = 0 then el_pos.start.character - cur_char_offset
            else el_pos.start.character
          let tok : SemanticToken :=
            { delta_line := delta_line
              delta_start := delta_start
              length := el_pos.stop.character - el_pos.start.character
              token_type := semantic_token_type_mapping SemanticTokenType.property
              token_modifiers_bitset := 0 }
          (semantic_tokens_encode_loop bridge rest el_pos.start.line el_pos.start.character).map
            (tok :: ·)

/-- The sort key order of `elements.sort_by_key(|(_, span)| span.start)`. -/
def spanStartLe (a b : ElementWithLoc) : Prop := a.2.start ≤ b.2.start

instance : DecidableRel spanStartLe := fun x y => Nat.decLe x.2.start y.2.start

instance : IsTotal ElementWithLoc spanStartLe := ⟨fun x y => Nat.le_total x.2.start y.2.start⟩

instance : IsTrans ElementWithLoc spanStartLe := ⟨fun _ _ _ => Nat.le_trans⟩

/-- `semantic_tokens_encode`: stable sort by span start, then the delta fold. -/
def semantic_tokens_encode (note : NoteFacts) (elements : List ElementWithLoc) :
    Option (List SemanticToken) :=
  semantic_tokens_encode_loop note.range_to_lsp_range
    (List.insertionSort spanStartLe elements) 0 0

/-- The converted editor ranges of exactly the elements the encoder emits a
token for: `LinkRef`s whose converted range is single-line, in list order;
`none` when a `LinkRef` conversion fails (the encoder's panic). -/
def emittedRanges (bridge : Span → Option Range) :
    List ElementWithLoc → Option (List Range)
  | [] => some []
  | (el, el_span) :: rest =>
    match el with
    | Element.linkRef _ =>
      match bridge el_span with
      | none => none
      | some el_pos =>
        if el_pos.stop.line > el_pos.start.line then emittedRanges bridge rest
        else (emittedRanges bridge rest).map (el_pos :: ·)
    | _ => emittedRanges bridge rest

/-- The pure delta encoding of a list of (already filtered, sorted, converted)
ranges, from a running `(cur_line, cur_char)` state. -/
def encodeRanges : List Range → Nat → Nat → List SemanticToken
  | [], _, _ => []
  | r :: rest, cur_line, cur_char =>
    let delta_line := r.start.line - cur_line
    let delta_start :=
      if delta_line = 0 then r.start.character - cur_char else r.start.character
    { delta_line := delta_line
      delta_start := delta_start
      length := r.stop.character - r.start.character
      token_type := semantic_token_type_mapping SemanticTokenType.property
      token_modifiers_bitset := 0 } :: encodeRanges rest r.start.line r.start.character

/-- Decode a relative-delta token stream back to absolute start positions,
from a running `(cur_line, cur_char)` state. -/
def decodeLoop : List SemanticToken → Nat → Nat → List Pos
  | [], _, _ => []
  | t :: rest, cur_line, cur_char =>
    let l := cur_line + t.delta_line
    let c := if t.delta_line = 0 then cur_char + t.delta_start else t.delta_start
    Pos.mk l c :: decodeLoop rest l c

/-- The absolute `(line, character)` start positions a client reconstructs from
the token stream. -/
def decodePositions (toks : List SemanticToken) : List Pos :=
  decodeLoop toks 0 0

/-- `delta_start` against the absolute start positions: on a repeated line it
is the character difference from the previous start, otherwise the absolute
character offset (the previous position of the first token is the origin). -/
def deltaStartOk : Pos → List SemanticToken → List Pos → Prop
  | _, [], [] => True
  | prev, t :: ts, p :: ps =>
    (if p.line = prev.line then t.delta_start = p.character - prev.character
     else t.delta_start = p.character) ∧ deltaStartOk p ts ps
  | _, _ :: _, [] => False
  | _, [], _ :: _ => False

--------------------------------------------------------------------------------
-- Diagnostics (`diag`)
--------------------------------------------------------------------------------

/-- `DiagCollection`: file → diagnostic set, as a first-match association list
(`HashMap` lookup semantics); a set is a `Finset` (unordered, value equality). -/
structure DiagCollection where
  store : List (NoteFile × Finset DiagWithLoc)

/-- `DiagCollection::default()`. -/
def DiagCollection.empty : DiagCollection := ⟨[]⟩

/-- `store.get(&file)`: the first entry for the file. -/
def DiagCollection.get (c : DiagCollection) (f : NoteFile) :
    Option (Finset DiagWithLoc) :=
  (c.store.find? (fun e => decide (e.1 = f))).map (·.2)

/-- `store.insert(file, set)`: the new entry shadows any old one. -/
def DiagCollection.insert (c : DiagCollection) (f : NoteFile)
    (s : Finset DiagWithLoc) : DiagCollection :=
  ⟨(f, s) :: c.store⟩

/-- One publish-diagnostics notification (`PublishDiagnosticsParams`), keyed by
the file's uri. -/
structure PublishParams where
  uri : String
  diagnostics : List DiagWithLoc
deriving DecidableEq, Repr

/-- The per-file change test of the loop body of `diag`: the current set
differs from the previous one, or there is no previous entry. -/
def changedForFile (db : FactsDB) (prev_diag_col : DiagCollection)
    (note_id : NoteId) : Bool :=
  match prev_diag_col.get (db.facts note_id).file with
  | some prev_set => decide (prev_set ≠ (db.facts note_id).diag.toFinset)
  | none => true

/-- The publish notification one note contributes to a pass: `diag::to_publish`
of its current set when the set changed, nothing otherwise. -/
def pubFor (db : FactsDB)
    (to_publish : NoteFile → Finset DiagWithLoc → Option PublishParams)
    (prev_diag_col : DiagCollection) (note_id : NoteId) : Option PublishParams :=
  if changedForFile db prev_diag_col note_id then
    to_publish (db.facts note_id).file (db.facts note_id).diag.toFinset
  else none

/-- The per-note loop of `diag`, threading the `changed` flag, the publish list
and the freshly built collection.  `to_publish` models `diag::to_publish`. -/
def diagLoop (db : FactsDB)
    (to_publish : NoteFile → Finset DiagWithLoc → Option PublishParams)
    (prev_diag_col : DiagCollection) :
    List NoteId → Bool → List PublishParams → DiagCollection →
    Bool × List PublishParams × DiagCollection
  | [], changed, diag_params, new_col => (changed, diag_params, new_col)
  | note_id :: rest, changed, diag_params, new_col =>
    diagLoop db to_publish prev_diag_col rest
      (changed || changedForFile db prev_diag_col note_id)
      (if changedForFile db prev_diag_col note_id then
        match to_publish (db.facts note_id).file (db.facts note_id).diag.toFinset with
        | some param => diag_params ++ [param]
        | none => diag_params
      else diag_params)
      (new_col.insert (db.facts note_id).file (db.facts note_id).diag.toFinset)

/-- `diag`: one diagnostics pass over every known note; `none` when no file's
set changed. -/
def diag (db : FactsDB)
    (to_publish : NoteFile → Finset DiagWithLoc → Option PublishParams)
    (prev_diag_col : DiagCollection) :
    Option (List PublishParams × DiagCollection) :=
  match diagLoop db to_publish prev_diag_col db.ids false [] DiagCollection.empty with
  | (changed, diag_params, new_col) =>
    if changed then some (diag_params, new_col) else none

--------------------------------------------------------------------------------
-- Code lenses (`code_lenses`, `code_lens_resolve`)
--------------------------------------------------------------------------------

/-- The opaque round-trip payload of a lens (`ReferenceData`). -/
structure ReferenceData where
  note_path : String
  heading_text : String
deriving DecidableEq, Repr

/-- The argument payload of the resolved command (`ShowReferencesData`). -/
structure ShowReferencesData where
  uri : String
  position : Pos
  locations : List Location
deriving DecidableEq, Repr

/-- A resolved command (`lsp_types::Command`); `arguments` holds the typed
payload list. -/
structure Command where
  title : String
  command : String
  arguments : Option (List ShowReferencesData)
deriving DecidableEq, Repr

/-- A code lens (`lsp_types::CodeLens`); `data` holds the typed payload. -/
structure CodeLens where
  range : Range
  command : Option Command
  data : Option ReferenceData
deriving DecidableEq, Repr

/-- The heading loop body of `code_lenses`: skip a heading with no incoming
references, skip one whose range fails to convert, emit the unresolved lens
otherwise. -/
def lensForHeading (note : NoteFacts) (path : String) (h_id : Nat) :
    Option CodeLens :=
  if (note.refs_to_heading h_id).length = 0 then none
  else
    match note.range_to_lsp_range (note.heading_by_id h_id).2 with
    | none => none
    | some lsp_range =>
      some { range := lsp_range
             command := none
             data := some { note_path := path
                            heading_text := (note.heading_by_id h_id).1.text } }

/-- `code_lenses`: generation phase of the code-lens protocol. -/
def code_lenses (db : FactsDB) (path : String) : Option (List CodeLens) :=
  (db.find_by_path path).map (fun note_id =>
    let note := db.facts note_id
    note.headings.filterMap (lensForHeading note path))

/-- The reference loop of `code_lens_resolve`: every referencing (note, ref)
pair converted to an editor location, unconvertible ones skipped. -/
def resolvedLocations (db : FactsDB) (references : List (NoteId × Nat)) :
    List Location :=
  references.filterMap (fun sr =>
    let src_note := db.facts sr.1
    let src_range := (src_note.ref_by_id sr.2).2
    match src_note.range_to_lsp_range src_range with
    | none => none
    | some lsp_range => some { uri := src_note.file.path, range := lsp_range })

/-- `code_lens_resolve`: resolution phase of the code-lens protocol. -/
def code_lens_resolve (db : FactsDB) (lens : CodeLens) : Option CodeLens := do
  let ref_data ← lens.data
  let note_id ← db.find_by_path ref_data.note_path
  let note := db.facts note_id
  let heading_id ← note.heading_with_text ref_data.heading_text
  let heading_range := (note.heading_by_id heading_id).2
  let heading_lsp_pos ← note.offset_to_lsp_position heading_range.start
  let references := note.refs_to_heading heading_id
  let locations := resolvedLocations db references
  let num_locs := locations.length
  let arguments :=
    if locations.isEmpty then none
    else some [{ uri := note.file.path
                 position := heading_lsp_pos
                 locations := locations : ShowReferencesData }]
  let command : Command :=
    { title := toString num_locs ++ " references"
      command := "zetaNote.showReferences"
      arguments := arguments }
  some { lens with command := some command }

--------------------------------------------------------------------------------
-- Concrete instances (used by the witnesses and counterexamples)
--------------------------------------------------------------------------------

/-- A note with no content: the base the concrete examples extend. -/
def emptyNote : NoteFacts where
  file := ⟨"/r", "/r/x.md"⟩
  content := ""
  version := Version.vs 0
  elements := []
  element_at_lsp_pos := fun _ => none
  title := none
  heading_with_text := fun _ => none
  headings_matching := fun _ => []
  range_to_lsp_range := fun _ => none
  offset_to_lsp_position := fun _ => none
  diag := []
  refs_to_heading := fun _ => []

/-- A position bridge that lays the whole text on line 0: byte offsets become
character offsets.  It is total and monotone. -/
def exBridgeLine (sp : Span) : Option Range :=
  some ⟨⟨0, sp.start⟩, ⟨0, sp.stop⟩⟩

/-- Note "a": a title heading and the link `[[b#Intro]]` under the cursor at
position (1,2). -/
def noteA : NoteFacts :=
  { emptyNote with
    file := ⟨"/r", "/r/a.md"⟩
    content := "# A\n..[[b#Intro]]"
    elements :=
      [(Element.heading ⟨"A", 1, ⟨0, 5⟩⟩, ⟨0, 5⟩),
       (Element.linkRef ⟨some "b", some "Intro", "[[b#Intro]]"⟩, ⟨10, 21⟩)]
    element_at_lsp_pos := fun p => if p = ⟨1, 2⟩ then some 1 else none
    title := some 0
    heading_with_text := fun s => if s = "A" then some 0 else none
    range_to_lsp_range := exBridgeLine }

/-- Note "b": a title heading and a level-2 heading "Intro" with byte span
[40,48); its bridge converts every span. -/
def noteBconv : NoteFacts :=
  { emptyNote with
    file := ⟨"/r", "/r/b.md"⟩
    content := "# B\n...\n## Intro\n..."
    elements :=
      [(Element.heading ⟨"B", 1, ⟨0, 60⟩⟩, ⟨0, 4⟩),
       (Element.heading ⟨"Intro", 2, ⟨40, 55⟩⟩, ⟨40, 48⟩)]
    title := some 0
    heading_with_text := fun s =>
      if s = "B" then some 0 else if s = "Intro" then some 1 else none
    headings_matching := fun pred =>
      (if pred ⟨"B", 1, ⟨0, 60⟩⟩ then [0] else []) ++
      (if pred ⟨"Intro", 2, ⟨40, 55⟩⟩ then [1] else [])
    range_to_lsp_range := exBridgeLine
    offset_to_lsp_position := fun off => if off = 40 then some ⟨4, 0⟩ else none
    refs_to_heading := fun hid => if hid = 1 then [(0, 1)] else [] }

/-- Note "b" with a position bridge that cannot map the span of "Intro"
(a stale/unconvertible byte span). -/
def noteBfail : NoteFacts :=
  { noteBconv with
    range_to_lsp_range := fun sp => if sp = ⟨40, 48⟩ then none else exBridgeLine sp
    offset_to_lsp_position := fun _ => none }

/-- The canonical name/path conversions of the examples under root "/r". -/
def exFromPath (p : String) : String :=
  if p = "/r/a.md" then "a" else if p = "/r/b.md" then "b" else p

def exToPath (n : String) : String := "/r/" ++ n ++ ".md"

/-- Two-note store in which every span of note "b" converts. -/
def dbConv : FactsDB where
  ids := [0, 1]
  facts := fun i => if i = 0 then noteA else noteBconv
  from_path := exFromPath
  to_path := exToPath

/-- Two-note store in which the span of heading "Intro" cannot be converted. -/
def dbFail : FactsDB where
  ids := [0, 1]
  facts := fun i => if i = 0 then noteA else noteBfail
  from_path := exFromPath
  to_path := exToPath

/-- Note "a" with the cursor over the partial link `[[` (no heading part, no
`@` marker): the note-name completion branch. -/
def noteApartial : NoteFacts :=
  { noteA with
    elements :=
      [(Element.heading ⟨"A", 1, ⟨0, 5⟩⟩, ⟨0, 5⟩),
       (Element.linkRef ⟨none, none, "[["⟩, ⟨10, 12⟩)] }

/-- Store for the completion examples: cursor in note "a" over a partial link. -/
def dbCompl : FactsDB :=
  { dbConv with facts := fun i => if i = 0 then noteApartial else noteBconv }

/-- A second note-C2 instance: two link references, the first convertible on a
single line, the second with an unconvertible span. -/
def noteC2 : NoteFacts :=
  { emptyNote with
    elements :=
      [(Element.linkRef ⟨none, none, "[[x"⟩, ⟨0, 1⟩),
       (Element.linkRef ⟨none, none, "[[y"⟩, ⟨2, 3⟩)]
    range_to_lsp_range := fun sp => if sp = ⟨2, 3⟩ then none else exBridgeLine sp }

/-- A note for the token-encoder example: one heading and two link references
given out of span order, all spans convertible on line 0. -/
def noteC3 : NoteFacts :=
  { emptyNote with
    elements :=
      [(Element.linkRef ⟨none, none, "l1"⟩, ⟨10, 21⟩),
       (Element.heading ⟨"T", 1, ⟨0, 5⟩⟩, ⟨0, 5⟩),
       (Element.linkRef ⟨none, none, "l2"⟩, ⟨3, 6⟩)]
    range_to_lsp_range := exBridgeLine }

/-- A note with one diagnostic, for the diagnostics-pass examples. -/
def noteD : NoteFacts :=
  { emptyNote with file := ⟨"/r", "/r/d.md"⟩, diag := [⟨"broken link", ⟨7, 9⟩⟩] }

/-- A one-note store for the diagnostics-pass examples. -/
def dbDiag : FactsDB where
  ids := [0]
  facts := fun _ => noteD
  from_path := fun p => p
  to_path := fun n => n

/-- A `diag::to_publish` model that publishes under the file's path. -/
def exPub (f : NoteFile) (_ : Finset DiagWithLoc) : Option PublishParams :=
  some ⟨f.path, []⟩

/-- A file present in a previous diagnostic collection but gone from the index. -/
def goneFile : NoteFile := ⟨"/r", "/r/gone.md"⟩

/-- A previous collection holding the gone file and note "d"'s current set. -/
def prevWithGone : DiagCollection :=
  ⟨[(goneFile, {⟨"old", ⟨0, 1⟩⟩}), (⟨"/r", "/r/d.md"⟩, noteD.diag.toFinset)]⟩

/-- The unresolved lens of heading "Intro" of note "b", as generation emits it. -/
def exLens : CodeLens :=
  { range := ⟨⟨4, 0⟩, ⟨4, 8⟩⟩
    command := none
    data := some ⟨"/r/b.md", "Intro"⟩ }

instance {e a : Type} [DecidableEq e] [DecidableEq a] : DecidableEq (Except e a) :=
  fun x y =>
    match x, y with
    | Except.error e1, Except.error e2 =>
      if h : e1 = e2 then isTrue (by rw [h])
      else isFalse (by intro hc; cases hc; exact h rfl)
    | Except.error _, Except.ok _ => isFalse (by intro hc; cases hc)
    | Except.ok _, Except.error _ => isFalse (by intro hc; cases hc)
    | Except.ok a1, Except.ok a2 =>
      if h : a1 = a2 then isTrue (by rw [h])
      else isFalse (by intro hc; cases hc; exact h rfl)

--------------------------------------------------------------------------------
-- Theorems
--------------------------------------------------------------------------------

/-- C8: applying an edit sequence to a note whose path is not in the index is a
complete no-op on the store (no error channel exists in the return type); when
the note is found, each edit is applied in sequence against the buffer produced
by the previous edits (with the offset map, a pure function of the buffer,
recomputed each time), and the note's stored text is replaced and its version
set to the value of the request, all other notes and the index untouched. -/
theorem note_apply_changes_spec
    (apply_change : String → Option Range → String → String) (facts : FactsDB)
    (path : String) (changes : DidChangeTextDocumentParams) :
    (facts.find_by_path path = none →
      note_apply_changes apply_change facts path changes = facts) ∧
    (∀ note_id, facts.find_by_path path = some note_id →
      ((note_apply_changes apply_change facts path changes).facts note_id).content
          = changes.content_changes.foldl
              (fun acc c => apply_change acc c.range c.text)
              (facts.facts note_id).content ∧
      ((note_apply_changes apply_change facts path changes).facts note_id).version
          = Version.vs changes.version ∧
      (∀ cs c, changes.content_changes = cs ++ [c] →
        ((note_apply_changes apply_change facts path changes).facts note_id).content
          = apply_change
              (((note_apply_changes apply_change facts path
                  ⟨changes.version, cs⟩).facts note_id).content)
              c.range c.text) ∧
      (∀ j, j ≠ note_id →
        (note_apply_changes apply_change facts path changes).facts j
          = facts.facts j) ∧
      (note_apply_changes apply_change facts path changes).ids = facts.ids) := by
  constructor
  · intro h
    unfold note_apply_changes
    rw [h]
  · intro note_id h
    unfold note_apply_changes
    rw [h]
    refine ⟨?_, ?_, ?_, ?_, ?_⟩
    · simp [FactsDB.update_note]
    · simp [FactsDB.update_note]
    · intro cs c hcs
      simp [FactsDB.update_note, hcs, List.foldl_append]
    · intro j hj
      simp [FactsDB.update_note, hj]
    · rfl

/-- C1 (amended): when the cursor is over a `LinkRef` with a resolvable target
note and heading but the target heading's byte range cannot be converted by the
position bridge, `goto_definition` does not skip and return an absent result:
it unwraps the failed conversion, i.e. the whole request aborts with a panic
(modelled as `Except.error ()`); absent results arise only from failed lookups. -/
theorem goto_definition_unconvertible_panics (db : FactsDB) (path : String)
    (pos : Pos) (source_id target_id : NoteId) (link_ref : LinkRef)
    (eid hid : Nat)
    (h1 : db.find_by_path path = some source_id)
    (h2 : (db.facts source_id).element_at_lsp_pos pos = some eid)
    (h3 : ((db.facts source_id).elements_by_id eid).1 = Element.linkRef link_ref)
    (h4 : db.find_by_name (link_ref.note_name.getD (db.from_path path))
            = some target_id)
    (h5 : (match link_ref.heading with
           | some lh => (db.facts target_id).heading_with_text lh
           | none => (db.facts target_id).title) = some hid)
    (h6 : (db.facts target_id).range_to_lsp_range
            ((db.facts target_id).heading_by_id hid).2 = none) :
    goto_definition db path pos = Except.error () := by
  unfold goto_definition
  simp only [h1, h2, h3, h4, h5, h6]

/-- Witness for `goto_definition_unconvertible_panics`: in the concrete store
`dbFail` the link `[[b#Intro]]` resolves to note "b"'s heading "Intro", whose
span cannot be converted, and the request aborts. -/
theorem goto_definition_unconvertible_panics_witness :
    goto_definition dbFail "/r/a.md" ⟨1, 2⟩ = Except.error () :=
  goto_definition_unconvertible_panics dbFail "/r/a.md" ⟨1, 2⟩ 0 1
    ⟨some "b", some "Intro", "[[b#Intro]]"⟩ 1 1 (by decide) (by decide) (by decide)
    (by decide) (by decide) (by decide)

/-- C1 (counterexample): in `dbFail` the cursor at (1,2) of note "a" lies on a
`LinkRef` whose target note and heading resolve, the target heading's span
cannot be converted, and `goto_definition` is a hard error (`Except.error`),
not the absent result the claim requires. -/
theorem goto_definition_counterexample :
    dbFail.find_by_path "/r/a.md" = some 0 ∧
    (dbFail.facts 0).element_at_lsp_pos ⟨1, 2⟩ = some 1 ∧
    ((dbFail.facts 0).elements_by_id 1).1
      = Element.linkRef ⟨some "b", some "Intro", "[[b#Intro]]"⟩ ∧
    dbFail.find_by_name "b" = some 1 ∧
    (dbFail.facts 1).heading_with_text "Intro" = some 1 ∧
    (dbFail.facts 1).range_to_lsp_range ((dbFail.facts 1).heading_by_id 1).2
      = none ∧
    goto_definition dbFail "/r/a.md" ⟨1, 2⟩ = Except.error () := by
  decide

/-- The encoder loop is the pure delta encoding of the emitted converted
ranges; in particular it fails exactly when `emittedRanges` does. -/
theorem semantic_tokens_encode_loop_eq (bridge : Span → Option Range) :
    ∀ (l : List ElementWithLoc) (cur_line cur_char : Nat),
      semantic_tokens_encode_loop bridge l cur_line cur_char
        = (emittedRanges bridge l).map (fun rs => encodeRanges rs cur_line cur_char) := by
  intro l
  induction l with
  | nil => intro cl cc; rfl
  | cons e rest ih =>
    obtain ⟨el, sp⟩ := e
    intro cl cc
    cases el with
    | heading h =>
      simp only [semantic_tokens_encode_loop, emittedRanges, ih]
    | other =>
      simp only [semantic_tokens_encode_loop, emittedRanges, ih]
    | linkRef r =>
      cases hb : bridge sp with
      | none =>
        simp only [semantic_tokens_encode_loop, emittedRanges, hb, Option.map_none']
      | some pos =>
        by_cases hml : pos.stop.line > pos.start.line
        · simp only [semantic_tokens_encode_loop, emittedRanges, hb, if_pos hml, ih]
        · cases he : emittedRanges bridge rest with
          | none =>
            simp only [semantic_tokens_encode_loop, emittedRanges, hb, if_neg hml,
              ih, he, Option.map_none']
          | some rs =>
            simp only [semantic_tokens_encode_loop, emittedRanges, hb, if_neg hml,
              ih, he, Option.map_some', encodeRanges]

/-- `emittedRanges` fails exactly when some `LinkRef` span fails to convert. -/
theorem emittedRanges_eq_none_iff (bridge : Span → Option Range) :
    ∀ l : List ElementWithLoc,
      emittedRanges bridge l = none ↔
        ∃ e ∈ l, (∃ r, e.1 = Element.linkRef r) ∧ bridge e.2 = none := by
  intro l
  induction l with
  | nil => simp [emittedRanges]
  | cons e rest ih =>
    obtain ⟨el, sp⟩ := e
    cases el with
    | heading h =>
      simp only [emittedRanges, ih]
      constructor
      · rintro ⟨e, he, hr, hb⟩
        exact ⟨e, List.mem_cons_of_mem _ he, hr, hb⟩
      · rintro ⟨e, he, ⟨r, hr⟩, hb⟩
        rcases List.mem_cons.mp he with heq | he
        · subst heq; cases hr
        · exact ⟨e, he, ⟨r, hr⟩, hb⟩
    | other =>
      simp only [emittedRanges, ih]
      constructor
      · rintro ⟨e, he, hr, hb⟩
        exact ⟨e, List.mem_cons_of_mem _ he, hr, hb⟩
      · rintro ⟨e, he, ⟨r, hr⟩, hb⟩
        rcases List.mem_cons.mp he with heq | he
        · subst heq; cases hr
        · exact ⟨e, he, ⟨r, hr⟩, hb⟩
    | linkRef r =>
      cases hb : bridge sp with
      | none =>
        simp only [emittedRanges, hb]
        constructor
        · intro _
          exact ⟨(Element.linkRef r, sp), List.mem_cons_self _ _, ⟨r, rfl⟩, hb⟩
        · intro _; trivial
      | some pos =>
        have hjoin : ∀ p : Prop, (p ↔ ∃ e ∈ rest, (∃ r, e.1 = Element.linkRef r) ∧ bridge e.2 = none) →
            (p ↔ ∃ e ∈ (Element.linkRef r, sp) :: rest,
              (∃ r, e.1 = Element.linkRef r) ∧ bridge e.2 = none) := by
          intro p hp
          rw [hp]
          constructor
          · rintro ⟨e, he, hr, hbn⟩
            exact ⟨e, List.mem_cons_of_mem _ he, hr, hbn⟩
          · rintro ⟨e, he, hr, hbn⟩
            rcases List.mem_cons.mp he with heq | he
            · subst heq
              rw [hb] at hbn
              cases hbn
            · exact ⟨e, he, hr, hbn⟩
        by_cases hml : pos.stop.line > pos.start.line
        · refine hjoin _ ?_
          simp only [emittedRanges, hb, if_pos hml, ih]
        · refine hjoin _ ?_
          simp only [emittedRanges, hb, if_neg hml, Option.map_eq_none', ih]

/-- C2 (amended): the semantic token encoder does not skip a `LinkRef` whose
span fails to convert: its result is the panic value `none` exactly when some
`LinkRef` element's span cannot be converted by the position bridge (only
`Heading`/other elements and multi-line converted ranges are skipped); it
encodes the elements only when every `LinkRef` span converts. -/
theorem semantic_tokens_encode_none_iff (note : NoteFacts)
    (elements : List ElementWithLoc) :
    semantic_tokens_encode note elements = none ↔
      ∃ e ∈ elements, (∃ r, e.1 = Element.linkRef r) ∧
        note.range_to_lsp_range e.2 = none := by
  unfold semantic_tokens_encode
  rw [semantic_tokens_encode_loop_eq, Option.map_eq_none', emittedRanges_eq_none_iff]
  constructor
  · rintro ⟨e, he, hr, hb⟩
    exact ⟨e, (List.perm_insertionSort spanStartLe elements).mem_iff.mp he, hr, hb⟩
  · rintro ⟨e, he, hr, hb⟩
    exact ⟨e, (List.perm_insertionSort spanStartLe elements).mem_iff.mpr he, hr, hb⟩

/-- C2 (counterexample): `noteC2` has two `LinkRef` elements, the first with a
convertible single-line span and the second with an unconvertible span; the
claim requires the encoder to skip the second and still encode the first, but
the encoder fails outright (`none`, the `.unwrap()` panic). -/
theorem semantic_tokens_encode_counterexample :
    noteC2.range_to_lsp_range ⟨0, 1⟩ = some ⟨⟨0, 0⟩, ⟨0, 1⟩⟩ ∧
    noteC2.range_to_lsp_range ⟨2, 3⟩ = none ∧
    semantic_tokens_encode noteC2 noteC2.elements = none := by
  decide

/-- Length of a `filterMap` as the length of the `isSome` filter. -/
theorem length_filterMap_eq_length_filter {α β : Type} (f : α → Option β) :
    ∀ l : List α, (l.filterMap f).length = (l.filter (fun x => (f x).isSome)).length := by
  intro l
  induction l with
  | nil => rfl
  | cons x rest ih =>
    cases hf : f x with
    | none => simp [List.filterMap_cons, List.filter_cons, hf, ih]
    | some b => simp [List.filterMap_cons, List.filter_cons, hf, ih]

/-- C7 (amended): for every lens whose payload names an existing note and
heading and whose heading's start offset converts to an editor position, lens
resolution returns a lens (never an absent result) whose command title is
exactly "K references", K the number of referencing locations that survived
conversion; when K is zero the command carries no argument, otherwise its
argument is the `ShowReferencesData` payload naming the heading's own uri and
position and the surviving locations. -/
theorem code_lens_resolve_spec (db : FactsDB) (lens : CodeLens)
    (ref_data : ReferenceData) (note_id : NoteId) (heading_id : Nat)
    (heading_lsp_pos : Pos)
    (h1 : lens.data = some ref_data)
    (h2 : db.find_by_path ref_data.note_path = some note_id)
    (h3 : (db.facts note_id).heading_with_text ref_data.heading_text
            = some heading_id)
    (h4 : (db.facts note_id).offset_to_lsp_position
            ((db.facts note_id).heading_by_id heading_id).2.start
            = some heading_lsp_pos) :
    code_lens_resolve db lens
      = some { range := lens.range
               data := lens.data
               command := some
                 { title := toString (resolvedLocations db
                       ((db.facts note_id).refs_to_heading heading_id)).length
                       ++ " references"
                   command := "zetaNote.showReferences"
                   arguments :=
                     if (resolvedLocations db
                           ((db.facts note_id).refs_to_heading heading_id)).isEmpty
                     then none
                     else some [{ uri := (db.facts note_id).file.path
                                  position := heading_lsp_pos
                                  locations := resolvedLocations db
                                    ((db.facts note_id).refs_to_heading heading_id) }] } } := by
  unfold code_lens_resolve
  simp only [h1, h2, h3, h4, Option.bind_eq_bind, Option.some_bind]

/-- Witness for `code_lens_resolve_spec`: resolving the lens of heading
"Intro" in the store `dbConv`, whose single incoming reference converts. -/
theorem code_lens_resolve_spec_witness :
    code_lens_resolve dbConv exLens
      = some { range := exLens.range
               data := exLens.data
               command := some
                 { title := toString (resolvedLocations dbConv
                       ((dbConv.facts 1).refs_to_heading 1)).length
                       ++ " references"
                   command := "zetaNote.showReferences"
                   arguments :=
                     if (resolvedLocations dbConv
                           ((dbConv.facts 1).refs_to_heading 1)).isEmpty
                     then none
                     else some [{ uri := (dbConv.facts 1).file.path
                                  position := ⟨4, 0⟩
                                  locations := resolvedLocations dbConv
                                    ((dbConv.facts 1).refs_to_heading 1) }] } } :=
  code_lens_resolve_spec dbConv exLens ⟨"/r/b.md", "Intro"⟩ 1 1 ⟨4, 0⟩
    (by decide) (by decide) (by decide) (by decide)

/-- C7 (counterexample): in `dbFail` the lens payload names note "b" and its
existing heading "Intro", yet resolution returns an absent result, because the
heading's own start offset cannot be converted to an editor position — the
claim's "returns a lens (never an absent result)" fails as stated. -/
theorem code_lens_resolve_counterexample :
    exLens.data = some ⟨"/r/b.md", "Intro"⟩ ∧
    dbFail.find_by_path "/r/b.md" = some 1 ∧
    (dbFail.facts 1).heading_with_text "Intro" = some 1 ∧
    code_lens_resolve dbFail exLens = none := by
  decide

/-- C6: for every known note, code lens generation emits exactly one lens per
heading that has at least one incoming reference and a convertible range — the
lens carries the heading's editor range, no command yet, and a
`ReferenceData{note_path, heading_text}` payload — and emits no lens for any
heading with zero incoming references: every emitted lens stems from a heading
with a nonzero reference count, every qualifying heading's lens is in the
list, and the list's length is the number of qualifying headings. -/
theorem code_lenses_spec (db : FactsDB) (path : String) (note_id : NoteId)
    (h : db.find_by_path path = some note_id) :
    ∃ lenses, code_lenses db path = some lenses ∧
      (∀ lens ∈ lenses, ∃ h_id ∈ (db.facts note_id).headings,
        ((db.facts note_id).refs_to_heading h_id).length ≠ 0 ∧
        ∃ lr, (db.facts note_id).range_to_lsp_range
                ((db.facts note_id).heading_by_id h_id).2 = some lr ∧
          lens = ⟨lr, none,
                  some ⟨path, ((db.facts note_id).heading_by_id h_id).1.text⟩⟩) ∧
      (∀ h_id ∈ (db.facts note_id).headings,
        ((db.facts note_id).refs_to_heading h_id).length ≠ 0 →
        ∀ lr, (db.facts note_id).range_to_lsp_range
                ((db.facts note_id).heading_by_id h_id).2 = some lr →
          (⟨lr, none,
            some ⟨path, ((db.facts note_id).heading_by_id h_id).1.text⟩⟩ : CodeLens)
            ∈ lenses) ∧
      lenses.length
        = ((db.facts note_id).headings.filter (fun h_id =>
            decide (((db.facts note_id).refs_to_heading h_id).length ≠ 0) &&
            ((db.facts note_id).range_to_lsp_range
              ((db.facts note_id).heading_by_id h_id).2).isSome)).length := by
  refine ⟨(db.facts note_id).headings.filterMap
    (lensForHeading (db.facts note_id) path), ?_, ?_, ?_, ?_⟩
  · unfold code_lenses
    rw [h]
    rfl
  · intro lens hmem
    obtain ⟨h_id, hin, hsome⟩ := List.mem_filterMap.mp hmem
    refine ⟨h_id, hin, ?_⟩
    unfold lensForHeading at hsome
    by_cases hz : ((db.facts note_id).refs_to_heading h_id).length = 0
    · rw [if_pos hz] at hsome
      cases hsome
    · rw [if_neg hz] at hsome
      refine ⟨hz, ?_⟩
      cases hb : (db.facts note_id).range_to_lsp_range
          ((db.facts note_id).heading_by_id h_id).2 with
      | none =>
        rw [hb] at hsome
        cases hsome
      | some lr =>
        rw [hb] at hsome
        cases hsome
        exact ⟨lr, rfl, rfl⟩
  · intro h_id hin hz lr hb
    refine List.mem_filterMap.mpr ⟨h_id, hin, ?_⟩
    unfold lensForHeading
    rw [if_neg hz, hb]
  · rw [length_filterMap_eq_length_filter]
    have hcong : ∀ h_id ∈ (db.facts note_id).headings,
        (lensForHeading (db.facts note_id) path h_id).isSome
          = (decide (((db.facts note_id).refs_to_heading h_id).length ≠ 0) &&
             ((db.facts note_id).range_to_lsp_range
               ((db.facts note_id).heading_by_id h_id).2).isSome) := by
      intro h_id _
      unfold lensForHeading
      by_cases hz : ((db.facts note_id).refs_to_heading h_id).length = 0
      · simp [hz]
      · cases hb : (db.facts note_id).range_to_lsp_range
            ((db.facts note_id).heading_by_id h_id).2 with
        | none => simp [hz, hb]
        | some lr => simp [hz, hb]
    rw [List.filter_congr hcong]

/-- Witness for `code_lenses_spec`: in `dbConv`, note "b" has heading "B" with
no incoming references (no lens) and heading "Intro" with one (one lens). -/
theorem code_lenses_spec_witness :
    ∃ lenses, code_lenses dbConv "/r/b.md" = some lenses ∧
      (∀ lens ∈ lenses, ∃ h_id ∈ (dbConv.facts 1).headings,
        ((dbConv.facts 1).refs_to_heading h_id).length ≠ 0 ∧
        ∃ lr, (dbConv.facts 1).range_to_lsp_range
                ((dbConv.facts 1).heading_by_id h_id).2 = some lr ∧
          lens = ⟨lr, none,
                  some ⟨"/r/b.md", ((dbConv.facts 1).heading_by_id h_id).1.text⟩⟩) ∧
      (∀ h_id ∈ (dbConv.facts 1).headings,
        ((dbConv.facts 1).refs_to_heading h_id).length ≠ 0 →
        ∀ lr, (dbConv.facts 1).range_to_lsp_range
                ((dbConv.facts 1).heading_by_id h_id).2 = some lr →
          (⟨lr, none,
            some ⟨"/r/b.md", ((dbConv.facts 1).heading_by_id h_id).1.text⟩⟩ : CodeLens)
            ∈ lenses) ∧
      lenses.length
        = ((dbConv.facts 1).headings.filter (fun h_id =>
            decide (((dbConv.facts 1).refs_to_heading h_id).length ≠ 0) &&
            ((dbConv.facts 1).range_to_lsp_range
              ((dbConv.facts 1).heading_by_id h_id).2).isSome)).length :=
  code_lenses_spec dbConv "/r/b.md" 1 (by decide)

/-- An id-indexed read that returns something other than the junk default hits
a real element of the list. -/
theorem getD_mem_of_ne {α : Type} (l : List α) (i : Nat) (d x : α)
    (h : l.getD i d = x) (hx : x ≠ d) : x ∈ l := by
  by_cases hi : i < l.length
  · rw [List.getD_eq_getElem l d hi] at h
    exact h ▸ List.getElem_mem hi
  · rw [List.getD_eq_default l d (Nat.le_of_not_lt hi)] at h
    exact absurd h.symm hx

/-- C4: for every note, cursor position and store satisfying the index's
one-note-per-name invariant, completion candidate generation never returns a
candidate naming the current note in the note-name branch, and never returns a
candidate for a level-1 heading in the heading branch: every heading-branch
candidate stems from a heading of a known note with level ≠ 1. -/
theorem completion_candidates_no_self_no_title (db : FactsDB)
    (tmq : String → String → Bool) (current_tag : String) (pos : Pos)
    (items : List CompletionItem)
    (hres : completion_candidates db tmq current_tag pos = some items)
    (hinj : ∀ i ∈ db.ids, ∀ j ∈ db.ids,
      db.from_path (db.facts i).file.path = db.from_path (db.facts j).file.path →
        i = j) :
    ∀ item ∈ items,
      (∀ nm, item.data = some (CompletionType.noteCompletion nm) →
        nm ≠ db.from_path current_tag) ∧
      (∀ nm ht, item.data = some (CompletionType.headingCompletion nm ht) →
        ∃ cid ∈ db.ids, ∃ hd : Heading, ∃ sp : Span,
          (Element.heading hd, sp) ∈ (db.facts cid).elements ∧
          hd.text = ht ∧ item.label = hd.text ∧ hd.level ≠ 1) := by
  unfold completion_candidates at hres
  simp only [Option.bind_eq_bind] at hres
  cases hfp : db.find_by_path current_tag with
  | none => rw [hfp] at hres; simp at hres
  | some encl =>
    rw [hfp, Option.some_bind] at hres
    cases hel : (db.facts encl).element_at_lsp_pos pos with
    | none => rw [hel] at hres; simp at hres
    | some eid =>
      rw [hel, Option.some_bind] at hres
      cases helt : ((db.facts encl).elements_by_id eid).1 with
      | heading hd => rw [helt] at hres; simp at hres
      | other => rw [helt] at hres; simp at hres
      | linkRef r =>
        rw [helt] at hres
        dsimp only at hres
        have hfp' := hfp
        unfold FactsDB.find_by_path at hfp'
        have hencl_mem : encl ∈ db.ids := List.mem_of_find?_eq_some hfp'
        have hencl_path : (db.facts encl).file.path = current_tag := by
          have hp := List.find?_some hfp'
          simpa using hp
        cases htm : r.heading.isNone && !(stringContainsChar r.text '@') with
        | true =>
          rw [htm] at hres
          simp only [if_true] at hres
          cases hemp : (db.ids.filterMap
              (noteCandidate db tmq encl (r.note_name.getD ""))).isEmpty with
          | true => rw [hemp] at hres; simp at hres
          | false =>
            rw [hemp] at hres
            rw [if_neg (by decide)] at hres
            cases hres
            intro item hitem
            obtain ⟨cid, hcid_mem, hcand⟩ := List.mem_filterMap.mp hitem
            unfold noteCandidate at hcand
            by_cases hne : cid = encl
            · rw [if_pos hne] at hcand; cases hcand
            · rw [if_neg hne] at hcand
              dsimp only at hcand
              cases htitle : (db.facts cid).title with
              | none => rw [htitle] at hcand; cases hcand
              | some tid =>
                rw [htitle] at hcand
                dsimp only at hcand
                cases htq : tmq ((db.facts cid).heading_by_id tid).1.text
                    (r.note_name.getD "") with
                | false => rw [htq] at hcand; simp at hcand
                | true =>
                  rw [htq] at hcand
                  simp only [if_true] at hcand
                  cases hcand
                  constructor
                  · intro nm hdata
                    simp only [Option.some.injEq, CompletionType.noteCompletion.injEq] at hdata
                    intro hcontra
                    apply hne
                    apply hinj cid hcid_mem encl hencl_mem
                    rw [hdata, hcontra, hencl_path]
                  · intro nm ht hdata
                    simp at hdata
        | false =>
          rw [htm] at hres
          rw [if_neg (by decide)] at hres
          cases hfp2 : db.find_by_path
              (match r.note_name with
               | some name => db.to_path name
               | none => current_tag) with
          | none => rw [hfp2] at hres; simp at hres
          | some cand_id =>
            rw [hfp2, Option.some_bind] at hres
            cases hemp : (((db.facts cand_id).headings_with_ids
                ((db.facts cand_id).headings_matching
                  (fun hd => tmq hd.text (r.heading.getD "")))).filterMap
                  (headingCandidate (r.note_name.getD (db.from_path current_tag)))).isEmpty with
            | true => rw [hemp] at hres; simp at hres
            | false =>
              rw [hemp] at hres
              rw [if_neg (by decide)] at hres
              cases hres
              intro item hitem
              obtain ⟨⟨hd, sp⟩, hmemhh, hhc⟩ := List.mem_filterMap.mp hitem
              unfold headingCandidate at hhc
              by_cases hlvl : hd.level = 1
              · rw [if_pos hlvl] at hhc; cases hhc
              · rw [if_neg hlvl] at hhc
                cases hhc
                have hfp2' := hfp2
                unfold FactsDB.find_by_path at hfp2'
                have hcand_mem : cand_id ∈ db.ids := List.mem_of_find?_eq_some hfp2'
                obtain ⟨i, _, hget⟩ := List.mem_filterMap.mp hmemhh
                constructor
                · intro nm hdata
                  simp at hdata
                · intro nm ht hdata
                  simp only [Option.some.injEq, CompletionType.headingCompletion.injEq] at hdata
                  refine ⟨cand_id, hcand_mem, hd, sp, ?_, ?_, rfl, hlvl⟩
                  · cases hgd : (db.facts cand_id).elements.getD i (Element.other, ⟨0, 0⟩) with
                    | mk el spn =>
                      rw [hgd] at hget
                      cases el with
                      | heading h' =>
                        simp only [Option.some.injEq, Prod.mk.injEq] at hget
                        obtain ⟨hh', hsp'⟩ := hget
                        subst hh'
                        subst hsp'
                        exact getD_mem_of_ne _ i _ _ hgd (by simp)
                      | linkRef r' => cases hget
                      | other => cases hget
                  · exact hdata.2

/-- Witness for `completion_candidates_no_self_no_title`: in `dbCompl` the
note-name branch offers note "b" — and applying the theorem to that candidate
shows the offered name is not the current note's. -/
theorem completion_candidates_no_self_no_title_witness :
    "b" ≠ dbCompl.from_path "/r/a.md" :=
  (completion_candidates_no_self_no_title dbCompl (fun _ _ => true) "/r/a.md"
      ⟨1, 2⟩
      [⟨"B", some CompletionItemKind.file, some "b", some "b",
        some (CompletionType.noteCompletion "b")⟩]
      (by decide) (by decide)
      ⟨"B", some CompletionItemKind.file, some "b", some "b",
        some (CompletionType.noteCompletion "b")⟩
      (by decide)).1 "b" rfl

/-- C9: completion candidate generation returns the absent result (never an
empty list) when any required lookup fails — note not found, cursor not inside
any element, enclosing element not a `LinkRef`, target note of the heading
branch not found — and also when generation runs but produces zero candidates:
any returned list is nonempty. -/
theorem completion_candidates_absent (db : FactsDB)
    (tmq : String → String → Bool) (current_tag : String) (pos : Pos) :
    (∀ items, completion_candidates db tmq current_tag pos = some items →
      items ≠ []) ∧
    (db.find_by_path current_tag = none →
      completion_candidates db tmq current_tag pos = none) ∧
    (∀ encl, db.find_by_path current_tag = some encl →
      ((db.facts encl).element_at_lsp_pos pos = none →
        completion_candidates db tmq current_tag pos = none) ∧
      (∀ eid, (db.facts encl).element_at_lsp_pos pos = some eid →
        ((∀ r, ((db.facts encl).elements_by_id eid).1 ≠ Element.linkRef r) →
          completion_candidates db tmq current_tag pos = none) ∧
        (∀ r, ((db.facts encl).elements_by_id eid).1 = Element.linkRef r →
          (r.heading.isNone && !(stringContainsChar r.text '@')) = false →
          db.find_by_path
            (match r.note_name with
             | some name => db.to_path name
             | none => current_tag) = none →
          completion_candidates db tmq current_tag pos = none))) := by
  refine ⟨?_, ?_, ?_⟩
  · intro items hres
    unfold completion_candidates at hres
    simp only [Option.bind_eq_bind] at hres
    cases hfp : db.find_by_path current_tag with
    | none => rw [hfp] at hres; simp at hres
    | some encl =>
      rw [hfp, Option.some_bind] at hres
      cases hel : (db.facts encl).element_at_lsp_pos pos with
      | none => rw [hel] at hres; simp at hres
      | some eid =>
        rw [hel, Option.some_bind] at hres
        cases helt : ((db.facts encl).elements_by_id eid).1 with
        | heading hd => rw [helt] at hres; simp at hres
        | other => rw [helt] at hres; simp at hres
        | linkRef r =>
          rw [helt] at hres
          dsimp only at hres
          cases htm : r.heading.isNone && !(stringContainsChar r.text '@') with
          | true =>
            rw [htm] at hres
            simp only [if_true] at hres
            cases hemp : (db.ids.filterMap
                (noteCandidate db tmq encl (r.note_name.getD ""))).isEmpty with
            | true => rw [hemp] at hres; simp at hres
            | false =>
              rw [hemp, if_neg (by decide)] at hres
              cases hres
              intro hnil
              rw [hnil] at hemp
              simp at hemp
          | false =>
            rw [htm] at hres
            rw [if_neg (by decide)] at hres
            cases hfp2 : db.find_by_path
                (match r.note_name with
                 | some name => db.to_path name
                 | none => current_tag) with
            | none => rw [hfp2] at hres; simp at hres
            | some cand_id =>
              rw [hfp2, Option.some_bind] at hres
              cases hemp : (((db.facts cand_id).headings_with_ids
                  ((db.facts cand_id).headings_matching
                    (fun hd => tmq hd.text (r.heading.getD "")))).filterMap
                    (headingCandidate
                      (r.note_name.getD (db.from_path current_tag)))).isEmpty with
              | true => rw [hemp] at hres; simp at hres
              | false =>
                rw [hemp, if_neg (by decide)] at hres
                cases hres
                intro hnil
                rw [hnil] at hemp
                simp at hemp
  · intro h
    unfold completion_candidates
    simp [h]
  · intro encl hfp
    constructor
    · intro hel
      unfold completion_candidates
      simp [hfp, hel]
    · intro eid hel
      constructor
      · intro hnl
        unfold completion_candidates
        simp only [Option.bind_eq_bind, hfp, Option.some_bind, hel]
      · intro r helt htm hfp2
        unfold completion_candidates
        simp only [Option.bind_eq_bind, hfp, Option.some_bind, hel, helt]
        rw [htm]
        rw [if_neg (by decide)]
        rw [hfp2]
        rfl

/-- Decoding the delta encoding of a list of ranges recovers the absolute start
positions, provided the starts are ordered from the initial state (so every
`u32` subtraction in the encoder is exact). -/
theorem decodeLoop_encodeRanges :
    ∀ (rs : List Range) (cl cc : Nat),
      List.Chain Pos.lexLe ⟨cl, cc⟩ (rs.map (·.start)) →
      decodeLoop (encodeRanges rs cl cc) cl cc = rs.map (·.start) := by
  intro rs
  induction rs with
  | nil => intro cl cc _; rfl
  | cons r rest ih =>
    intro cl cc hchain
    rw [List.map_cons] at hchain
    rcases List.chain_cons.mp hchain with ⟨h1, h2⟩
    rcases h1 with hlt | ⟨hline, hchar⟩
    · have hlt' : cl < r.start.line := hlt
      have hdl : r.start.line - cl ≠ 0 := Nat.sub_ne_zero_of_lt hlt'
      simp only [encodeRanges, decodeLoop, List.map_cons, if_neg hdl]
      rw [Nat.add_sub_cancel' (Nat.le_of_lt hlt')]
      exact congrArg (List.cons r.start) (ih _ _ h2)
    · have hline' : cl = r.start.line := hline
      have hchar' : cc ≤ r.start.character := hchar
      subst hline'
      simp only [encodeRanges, decodeLoop, List.map_cons, Nat.sub_self,
        eq_self_iff_true, if_true, Nat.add_zero]
      rw [Nat.add_sub_cancel' hchar']
      exact congrArg (List.cons r.start) (ih _ _ h2)

/-- The encoder's `delta_start` discipline, against the absolute starts: the
character difference from the previous start on a repeated line, the absolute
character offset otherwise. -/
theorem deltaStartOk_encodeRanges :
    ∀ (rs : List Range) (cl cc : Nat),
      List.Chain Pos.lexLe ⟨cl, cc⟩ (rs.map (·.start)) →
      deltaStartOk ⟨cl, cc⟩ (encodeRanges rs cl cc) (rs.map (·.start)) := by
  intro rs
  induction rs with
  | nil => intro cl cc _; trivial
  | cons r rest ih =>
    intro cl cc hchain
    rw [List.map_cons] at hchain
    rcases List.chain_cons.mp hchain with ⟨h1, h2⟩
    rcases h1 with hlt | ⟨hline, hchar⟩
    · have hlt' : cl < r.start.line := hlt
      have hdl : r.start.line - cl ≠ 0 := Nat.sub_ne_zero_of_lt hlt'
      have hne : r.start.line ≠ cl := (Nat.ne_of_lt hlt').symm
      simp only [encodeRanges, deltaStartOk, List.map_cons, if_neg hdl, if_neg hne]
      constructor
      · trivial
      · exact ih _ _ h2
    · have hline' : cl = r.start.line := hline
      subst hline'
      simp only [encodeRanges, deltaStartOk, List.map_cons, Nat.sub_self,
        eq_self_iff_true, if_true]
      constructor
      · trivial
      · exact ih _ _ h2

/-- Every emitted range stems from some element of the input whose span the
bridge converted, and its converted range is single-line. -/
theorem emittedRanges_provenance (bridge : Span → Option Range) :
    ∀ (l : List ElementWithLoc) (rs : List Range),
      emittedRanges bridge l = some rs →
      ∀ r ∈ rs, (∃ e ∈ l, bridge e.2 = some r) ∧ r.stop.line ≤ r.start.line := by
  intro l
  induction l with
  | nil =>
    intro rs h r hr
    cases h
    cases hr
  | cons e rest ih =>
    obtain ⟨el, sp⟩ := e
    intro rs h r hr
    cases el with
    | heading hd =>
      simp only [emittedRanges] at h
      obtain ⟨⟨e', he', hb⟩, hsl⟩ := ih rs h r hr
      exact ⟨⟨e', List.mem_cons_of_mem _ he', hb⟩, hsl⟩
    | other =>
      simp only [emittedRanges] at h
      obtain ⟨⟨e', he', hb⟩, hsl⟩ := ih rs h r hr
      exact ⟨⟨e', List.mem_cons_of_mem _ he', hb⟩, hsl⟩
    | linkRef lr =>
      cases hb : bridge sp with
      | none => simp only [emittedRanges, hb] at h; cases h
      | some pos =>
        by_cases hml : pos.stop.line > pos.start.line
        · simp only [emittedRanges, hb, if_pos hml] at h
          obtain ⟨⟨e', he', hbe⟩, hsl⟩ := ih rs h r hr
          exact ⟨⟨e', List.mem_cons_of_mem _ he', hbe⟩, hsl⟩
        · simp only [emittedRanges, hb, if_neg hml] at h
          cases he : emittedRanges bridge rest with
          | none => rw [he] at h; cases h
          | some rs' =>
            rw [he, Option.map_some'] at h
            cases h
            rcases List.mem_cons.mp hr with heq | hr'
            · subst heq
              exact ⟨⟨(Element.linkRef lr, sp), List.mem_cons_self _ _, hb⟩,
                Nat.le_of_not_lt hml⟩
            · obtain ⟨⟨e', he', hbe⟩, hsl⟩ := ih rs' he r hr'
              exact ⟨⟨e', List.mem_cons_of_mem _ he', hbe⟩, hsl⟩

/-- With a monotone position bridge, the emitted ranges of a span-sorted
element list have pairwise ordered start positions. -/
theorem emittedRanges_pairwise (bridge : Span → Option Range)
    (hmono : ∀ s1 s2 r1 r2, bridge s1 = some r1 → bridge s2 = some r2 →
      s1.start ≤ s2.start → r1.start.lexLe r2.start) :
    ∀ (l : List ElementWithLoc) (rs : List Range),
      List.Pairwise spanStartLe l → emittedRanges bridge l = some rs →
      List.Pairwise (fun r1 r2 : Range => r1.start.lexLe r2.start) rs := by
  intro l
  induction l with
  | nil =>
    intro rs _ h
    cases h
    exact List.Pairwise.nil
  | cons e rest ih =>
    obtain ⟨el, sp⟩ := e
    intro rs hp h
    rcases List.pairwise_cons.mp hp with ⟨hhead, hrest⟩
    cases el with
    | heading hd =>
      simp only [emittedRanges] at h
      exact ih rs hrest h
    | other =>
      simp only [emittedRanges] at h
      exact ih rs hrest h
    | linkRef lr =>
      cases hb : bridge sp with
      | none => simp only [emittedRanges, hb] at h; cases h
      | some pos =>
        by_cases hml : pos.stop.line > pos.start.line
        · simp only [emittedRanges, hb, if_pos hml] at h
          exact ih rs hrest h
        · simp only [emittedRanges, hb, if_neg hml] at h
          cases he : emittedRanges bridge rest with
          | none => rw [he] at h; cases h
          | some rs' =>
            rw [he, Option.map_some'] at h
            cases h
            refine List.pairwise_cons.mpr ⟨?_, ih rs' hrest he⟩
            intro r' hr'
            obtain ⟨⟨e', he', hbe⟩, _⟩ :=
              emittedRanges_provenance bridge rest rs' he r' hr'
            exact hmono sp e'.2 pos r' hb hbe (hhead e' he')

/-- C3: whenever the semantic token encoder succeeds and the position bridge is
monotone on span starts (the collaborator contract of a real byte-to-position
mapping), the produced token stream decodes to absolute positions that are
monotonically non-decreasing in `(line, character)`; the decoded positions are
exactly the converted start positions of the emitted elements, no emitted
element's converted range spans more than one line, and each token's
`delta_start` is the character difference from the previous token's start when
on the same line, the absolute character offset otherwise. -/
theorem semantic_tokens_encode_spec (note : NoteFacts)
    (elements : List ElementWithLoc) (toks : List SemanticToken)
    (hmono : ∀ s1 s2 r1 r2, note.range_to_lsp_range s1 = some r1 →
      note.range_to_lsp_range s2 = some r2 → s1.start ≤ s2.start →
      r1.start.lexLe r2.start)
    (henc : semantic_tokens_encode note elements = some toks) :
    ∃ rs, emittedRanges note.range_to_lsp_range
        (List.insertionSort spanStartLe elements) = some rs ∧
      decodePositions toks = rs.map (·.start) ∧
      List.Chain' Pos.lexLe (decodePositions toks) ∧
      (∀ r ∈ rs, r.stop.line ≤ r.start.line) ∧
      deltaStartOk ⟨0, 0⟩ toks (rs.map (·.start)) := by
  unfold semantic_tokens_encode at henc
  rw [semantic_tokens_encode_loop_eq] at henc
  cases he : emittedRanges note.range_to_lsp_range
      (List.insertionSort spanStartLe elements) with
  | none => rw [he] at henc; cases henc
  | some rs =>
    rw [he, Option.map_some'] at henc
    have htoks : toks = encodeRanges rs 0 0 := (Option.some.injEq _ _ ▸ henc).symm
    have hsorted : List.Pairwise spanStartLe
        (List.insertionSort spanStartLe elements) :=
      List.sorted_insertionSort spanStartLe elements
    have hpw : List.Pairwise (fun r1 r2 : Range => r1.start.lexLe r2.start) rs :=
      emittedRanges_pairwise note.range_to_lsp_range hmono _ rs hsorted he
    have hpwmap : List.Pairwise Pos.lexLe (rs.map (·.start)) :=
      List.Pairwise.map _ (fun _ _ h => h) hpw
    have hchain : List.Chain Pos.lexLe ⟨0, 0⟩ (rs.map (·.start)) := by
      rw [List.chain_iff_pairwise]
      exact List.pairwise_cons.mpr ⟨fun p _ => Pos.zero_lexLe p, hpwmap⟩
    have hdec : decodePositions toks = rs.map (·.start) := by
      rw [htoks]
      exact decodeLoop_encodeRanges rs 0 0 hchain
    refine ⟨rs, rfl, hdec, ?_, ?_, ?_⟩
    · rw [hdec]
      exact hpwmap.chain'
    · intro r hr
      exact (emittedRanges_provenance note.range_to_lsp_range _ rs he r hr).2
    · rw [htoks]
      exact deltaStartOk_encodeRanges rs 0 0 hchain

/-- Witness for `semantic_tokens_encode_spec`: the three out-of-order elements
of `noteC3` (a heading and two link references on line 0) encode to two tokens
with deltas 3 and 7. -/
theorem semantic_tokens_encode_spec_witness :
    ∃ rs, emittedRanges noteC3.range_to_lsp_range
        (List.insertionSort spanStartLe noteC3.elements) = some rs ∧
      decodePositions [⟨0, 3, 3, 1, 0⟩, ⟨0, 7, 11, 1, 0⟩] = rs.map (·.start) ∧
      List.Chain' Pos.lexLe (decodePositions [⟨0, 3, 3, 1, 0⟩, ⟨0, 7, 11, 1, 0⟩]) ∧
      (∀ r ∈ rs, r.stop.line ≤ r.start.line) ∧
      deltaStartOk ⟨0, 0⟩ [⟨0, 3, 3, 1, 0⟩, ⟨0, 7, 11, 1, 0⟩] (rs.map (·.start)) :=
  semantic_tokens_encode_spec noteC3 noteC3.elements
    [⟨0, 3, 3, 1, 0⟩, ⟨0, 7, 11, 1, 0⟩]
    (by
      intro s1 s2 r1 r2 h1 h2 hle
      simp only [noteC3, exBridgeLine, Option.some.injEq] at h1 h2
      subst h1
      subst h2
      exact Or.inr ⟨rfl, hle⟩)
    (by decide)

/-- The `changed` flag of the loop: the incoming flag or any note changed. -/
theorem diagLoop_fst (db : FactsDB)
    (to_publish : NoteFile → Finset DiagWithLoc → Option PublishParams)
    (prev : DiagCollection) :
    ∀ (l : List NoteId) (changed : Bool) (params : List PublishParams)
      (col : DiagCollection),
      (diagLoop db to_publish prev l changed params col).1
        = (changed || l.any (changedForFile db prev)) := by
  intro l
  induction l with
  | nil => intro changed params col; simp [diagLoop]
  | cons id rest ih =>
    intro changed params col
    rw [diagLoop, ih, List.any_cons, Bool.or_assoc]

/-- The publish list of the loop: the incoming list extended with each changed
note's notification. -/
theorem diagLoop_params (db : FactsDB)
    (to_publish : NoteFile → Finset DiagWithLoc → Option PublishParams)
    (prev : DiagCollection) :
    ∀ (l : List NoteId) (changed : Bool) (params : List PublishParams)
      (col : DiagCollection),
      (diagLoop db to_publish prev l changed params col).2.1
        = params ++ l.filterMap (pubFor db to_publish prev) := by
  intro l
  induction l with
  | nil => intro changed params col; simp [diagLoop]
  | cons id rest ih =>
    intro changed params col
    rw [diagLoop, ih, List.filterMap_cons]
    cases hcf : changedForFile db prev id with
    | false =>
      rw [if_neg (by simp [hcf])]
      have hpf : pubFor db to_publish prev id = none := by
        unfold pubFor
        rw [if_neg (by simp [hcf])]
      rw [hpf]
    | true =>
      rw [if_pos (by simp [hcf])]
      have hpf : pubFor db to_publish prev id
          = to_publish (db.facts id).file (db.facts id).diag.toFinset := by
        unfold pubFor
        rw [if_pos (by simp [hcf])]
      rw [hpf]
      cases htp : to_publish (db.facts id).file (db.facts id).diag.toFinset with
      | none => simp
      | some p => simp

/-- The collection built by the loop: one entry per visited note, newest first,
on top of the incoming collection. -/
theorem diagLoop_store (db : FactsDB)
    (to_publish : NoteFile → Finset DiagWithLoc → Option PublishParams)
    (prev : DiagCollection) :
    ∀ (l : List NoteId) (changed : Bool) (params : List PublishParams)
      (col : DiagCollection),
      (diagLoop db to_publish prev l changed params col).2.2.store
        = (l.map (fun id => ((db.facts id).file, (db.facts id).diag.toFinset))).reverse
            ++ col.store := by
  intro l
  induction l with
  | nil => intro changed params col; simp [diagLoop]
  | cons id rest ih =>
    intro changed params col
    rw [diagLoop, ih]
    simp [DiagCollection.insert, List.append_assoc]

/-- The diagnostics pass as a whole: a result exactly when some note changed,
carrying the changed notes' notifications and the freshly built collection. -/
theorem diag_eq (db : FactsDB)
    (to_publish : NoteFile → Finset DiagWithLoc → Option PublishParams)
    (prev : DiagCollection) :
    diag db to_publish prev
      = if db.ids.any (changedForFile db prev) then
          some (db.ids.filterMap (pubFor db to_publish prev),
            ⟨(db.ids.map (fun id =>
              ((db.facts id).file, (db.facts id).diag.toFinset))).reverse⟩)
        else none := by
  unfold diag
  rcases hloop : diagLoop db to_publish prev db.ids false [] DiagCollection.empty
    with ⟨changed, params, ⟨store⟩⟩
  have h1 : changed = db.ids.any (changedForFile db prev) := by
    have h := diagLoop_fst db to_publish prev db.ids false [] DiagCollection.empty
    rw [hloop] at h
    simpa using h
  have h2 : params = db.ids.filterMap (pubFor db to_publish prev) := by
    have h := diagLoop_params db to_publish prev db.ids false [] DiagCollection.empty
    rw [hloop] at h
    simpa using h
  have h3 : store = (db.ids.map (fun id =>
      ((db.facts id).file, (db.facts id).diag.toFinset))).reverse := by
    have h := diagLoop_store db to_publish prev db.ids false [] DiagCollection.empty
    rw [hloop] at h
    simpa [DiagCollection.empty] using h
  subst h1
  subst h2
  subst h3
  rfl

/-- A note whose previous entry equals its current set does not count as
changed. -/
theorem changedForFile_false {db : FactsDB} {prev : DiagCollection} {id : NoteId}
    (h : prev.get (db.facts id).file = some ((db.facts id).diag.toFinset)) :
    changedForFile db prev id = false := by
  unfold changedForFile
  rw [h]
  simp

/-- A note with no previous entry, or a different one, counts as changed. -/
theorem changedForFile_true {db : FactsDB} {prev : DiagCollection} {id : NoteId}
    (h : prev.get (db.facts id).file ≠ some ((db.facts id).diag.toFinset)) :
    changedForFile db prev id = true := by
  unfold changedForFile
  cases hg : prev.get (db.facts id).file with
  | none => rfl
  | some s =>
    simp only [decide_eq_true_eq]
    intro heq
    exact h (by rw [hg, heq])

/-- C5: on a diagnostics pass over a store whose index maps distinct notes to
distinct paths, with a publisher that keys notifications by the file's path:
if no known note's current set differs from its previously published one, the
differ returns no result at all; a file whose set is unchanged and was
previously present never appears in the publish list; any change (or missing
previous entry) forces a result; and the returned new collection holds the
current diagnostic set of every known note. -/
theorem diag_spec (db : FactsDB)
    (to_publish : NoteFile → Finset DiagWithLoc → Option PublishParams)
    (prev : DiagCollection)
    (hpub : ∀ f s p, to_publish f s = some p → p.uri = f.path)
    (hinj : ∀ i ∈ db.ids, ∀ j ∈ db.ids,
      (db.facts i).file.path = (db.facts j).file.path → i = j) :
    ((∀ id ∈ db.ids, prev.get (db.facts id).file
        = some ((db.facts id).diag.toFinset)) →
      diag db to_publish prev = none) ∧
    (∀ id ∈ db.ids, prev.get (db.facts id).file
        = some ((db.facts id).diag.toFinset) →
      ∀ params col, diag db to_publish prev = some (params, col) →
        ∀ p ∈ params, p.uri ≠ (db.facts id).file.path) ∧
    ((∃ id ∈ db.ids, prev.get (db.facts id).file
        ≠ some ((db.facts id).diag.toFinset)) →
      diag db to_publish prev ≠ none) ∧
    (∀ params col, diag db to_publish prev = some (params, col) →
      ∀ id ∈ db.ids, col.get (db.facts id).file
        = some ((db.facts id).diag.toFinset)) := by
  refine ⟨?_, ?_, ?_, ?_⟩
  · intro hall
    rw [diag_eq]
    have hany : db.ids.any (changedForFile db prev) = false := by
      rw [List.any_eq_false]
      intro id hid
      rw [changedForFile_false (hall id hid)]
      simp
    rw [hany]
    simp
  · intro id hid hunch params col hdiag p hp
    rw [diag_eq] at hdiag
    by_cases hany : db.ids.any (changedForFile db prev) = true
    · rw [if_pos hany] at hdiag
      simp only [Option.some.injEq, Prod.mk.injEq] at hdiag
      obtain ⟨hparams, _⟩ := hdiag
      rw [← hparams] at hp
      obtain ⟨id', hid', hpf⟩ := List.mem_filterMap.mp hp
      unfold pubFor at hpf
      by_cases hcf : changedForFile db prev id' = true
      · rw [if_pos hcf] at hpf
        have hpuri := hpub _ _ _ hpf
        intro hcontra
        have hpath : (db.facts id').file.path = (db.facts id).file.path := by
          rw [← hpuri, hcontra]
        have hideq : id' = id := hinj id' hid' id hid hpath
        subst hideq
        rw [changedForFile_false hunch] at hcf
        simp at hcf
      · rw [if_neg hcf] at hpf
        cases hpf
    · rw [if_neg hany] at hdiag
      cases hdiag
  · rintro ⟨id, hid, hne⟩
    have hany : db.ids.any (changedForFile db prev) = true :=
      List.any_eq_true.mpr ⟨id, hid, by rw [changedForFile_true hne]⟩
    rw [diag_eq, if_pos hany]
    simp
  · intro params col hdiag id hid
    rw [diag_eq] at hdiag
    by_cases hany : db.ids.any (changedForFile db prev) = true
    · rw [if_pos hany] at hdiag
      simp only [Option.some.injEq, Prod.mk.injEq] at hdiag
      obtain ⟨_, hcol⟩ := hdiag
      rw [← hcol]
      unfold DiagCollection.get
      cases hf : ((db.ids.map (fun id =>
          ((db.facts id).file, (db.facts id).diag.toFinset))).reverse).find?
          (fun e => decide (e.1 = (db.facts id).file)) with
      | none =>
        exfalso
        have hmem : ((db.facts id).file, (db.facts id).diag.toFinset)
            ∈ (db.ids.map (fun id =>
              ((db.facts id).file, (db.facts id).diag.toFinset))).reverse :=
          List.mem_reverse.mpr (List.mem_map_of_mem _ hid)
        have hnp := List.find?_eq_none.mp hf _ hmem
        apply hnp
        simp
      | some e =>
        have he1 : e.1 = (db.facts id).file := by
          have hed := List.find?_some hf
          simpa using hed
        have hemem : e ∈ (db.ids.map (fun id =>
            ((db.facts id).file, (db.facts id).diag.toFinset))).reverse :=
          List.mem_of_find?_eq_some hf
        rw [List.mem_reverse] at hemem
        obtain ⟨id', hid', hfe⟩ := List.mem_map.mp hemem
        have hkey : (db.facts id').file = (db.facts id).file := by
          rw [← he1, ← hfe]
        have hideq : id' = id := hinj id' hid' id hid (by rw [hkey])
        subst hideq
        rw [← hfe]
        rfl
    · rw [if_neg hany] at hdiag
      cases hdiag

/-- Witness for `diag_spec`: the one-note store `dbDiag` against an empty
previous collection (the note's diagnostic set has no previous entry). -/
theorem diag_spec_witness :
    ((∀ id ∈ dbDiag.ids, DiagCollection.empty.get (dbDiag.facts id).file
        = some ((dbDiag.facts id).diag.toFinset)) →
      diag dbDiag exPub DiagCollection.empty = none) ∧
    (∀ id ∈ dbDiag.ids, DiagCollection.empty.get (dbDiag.facts id).file
        = some ((dbDiag.facts id).diag.toFinset) →
      ∀ params col, diag dbDiag exPub DiagCollection.empty = some (params, col) →
        ∀ p ∈ params, p.uri ≠ (dbDiag.facts id).file.path) ∧
    ((∃ id ∈ dbDiag.ids, DiagCollection.empty.get (dbDiag.facts id).file
        ≠ some ((dbDiag.facts id).diag.toFinset)) →
      diag dbDiag exPub DiagCollection.empty ≠ none) ∧
    (∀ params col, diag dbDiag exPub DiagCollection.empty = some (params, col) →
      ∀ id ∈ dbDiag.ids, col.get (dbDiag.facts id).file
        = some ((dbDiag.facts id).diag.toFinset)) :=
  diag_spec dbDiag exPub DiagCollection.empty
    (by
      intro f s p h
      injection h with h
      rw [← h])
    (by decide)

/-- C10: a file present in the previously published collection but absent from
the current note index is never published for, is omitted from the returned
new collection, and its disappearance alone does not make the pass report a
change (stale diagnostics for removed notes are never cleared). -/
theorem diag_stale_file_spec (db : FactsDB)
    (to_publish : NoteFile → Finset DiagWithLoc → Option PublishParams)
    (prev : DiagCollection) (f : NoteFile)
    (hpub : ∀ g s p, to_publish g s = some p → p.uri = g.path)
    (_hprev : ∃ s, prev.get f = some s)
    (habs : ∀ id ∈ db.ids, (db.facts id).file.path ≠ f.path) :
    (∀ params col, diag db to_publish prev = some (params, col) →
      (∀ p ∈ params, p.uri ≠ f.path) ∧ col.get f = none) ∧
    ((∀ id ∈ db.ids, prev.get (db.facts id).file
        = some ((db.facts id).diag.toFinset)) →
      diag db to_publish prev = none) := by
  constructor
  · intro params col hdiag
    rw [diag_eq] at hdiag
    by_cases hany : db.ids.any (changedForFile db prev) = true
    · rw [if_pos hany] at hdiag
      simp only [Option.some.injEq, Prod.mk.injEq] at hdiag
      obtain ⟨hparams, hcol⟩ := hdiag
      constructor
      · intro p hp
        rw [← hparams] at hp
        obtain ⟨id', hid', hpf⟩ := List.mem_filterMap.mp hp
        unfold pubFor at hpf
        by_cases hcf : changedForFile db prev id' = true
        · rw [if_pos hcf] at hpf
          have hpuri := hpub _ _ _ hpf
          rw [hpuri]
          exact habs id' hid'
        · rw [if_neg hcf] at hpf
          cases hpf
      · rw [← hcol]
        unfold DiagCollection.get
        have hnone : ((db.ids.map (fun id =>
            ((db.facts id).file, (db.facts id).diag.toFinset))).reverse).find?
            (fun e => decide (e.1 = f)) = none := by
          rw [List.find?_eq_none]
          intro e he
          rw [List.mem_reverse] at he
          obtain ⟨id', hid', hfe⟩ := List.mem_map.mp he
          simp only [decide_eq_true_eq]
          intro hef
          apply habs id' hid'
          rw [← hfe] at hef
          rw [← hef]
        rw [hnone]
        rfl
    · rw [if_neg hany] at hdiag
      cases hdiag
  · intro hall
    rw [diag_eq]
    have hany : db.ids.any (changedForFile db prev) = false := by
      rw [List.any_eq_false]
      intro id hid
      rw [changedForFile_false (hall id hid)]
      simp
    rw [hany]
    simp

/-- Witness for `diag_stale_file_spec`: `prevWithGone` holds an entry for the
removed file `goneFile` and the current set of the one remaining note, so the
pass reports nothing and would never touch the gone file. -/
theorem diag_stale_file_spec_witness :
    (∀ params col, diag dbDiag exPub prevWithGone = some (params, col) →
      (∀ p ∈ params, p.uri ≠ goneFile.path) ∧ col.get goneFile = none) ∧
    ((∀ id ∈ dbDiag.ids, prevWithGone.get (dbDiag.facts id).file
        = some ((dbDiag.facts id).diag.toFinset)) →
      diag dbDiag exPub prevWithGone = none) :=
  diag_stale_file_spec dbDiag exPub prevWithGone goneFile
    (by
      intro g s p h
      injection h with h
      rw [← h])
    ⟨{⟨"old", ⟨0, 1⟩⟩}, by decide⟩
    (by decide)
